import Mathlib

/-!
Shallow embedding of `parssir.py`: a tokenizer (`Lexer.lexicalize`) and a
precedence-climbing (Pratt) parser (`Parser.parse_expression`) producing a
binary expression tree.  Python exceptions are modelled with `Except`; the
parser's and the scanner's general recursion is modelled with an explicit
fuel argument, shown irrelevant once it exceeds the number of remaining
tokens (the termination theorem).
-/

namespace Parssir

/-- The module-level `OPERATORS` set of `parssir.py` (a Python `set` of
strings), modelled as a list with membership via `List.contains`. -/
def OPERATORS : List String :=
  ["+", "-", "*", "/", "%", "**", "//", "and", "or", "not",
   "==", "!=", "<", ">", "<=", ">=", "(", ")"]

/-- `TokenType` of `parssir.py`: `ATOM`, `OP` (operators), `EOF` (end of file). -/
inductive TokenType where
  | ATOM
  | OP
  | EOF
  deriving DecidableEq

/-- `Token` of `parssir.py`: a token type together with the lexeme text. -/
structure Token where
  type : TokenType
  value : String
  deriving DecidableEq

/-- The `\d` class of the lexer's regular expressions. -/
def isDigit (c : Char) : Bool := '0' ≤ c && c ≤ '9'

/-- The `[a-zA-Z_]` class of the lexer's regular expressions. -/
def isAlphaUnd (c : Char) : Bool :=
  ('a' ≤ c && c ≤ 'z') || ('A' ≤ c && c ≤ 'Z') || c == '_'

/-- The `[a-zA-Z0-9_]` class: continuation characters of the identifier
pattern in `Lexer._is_atom`. -/
def isAlphaNumUnd (c : Char) : Bool := isAlphaUnd c || isDigit c

/-- The character class `[+*/()-,]` of `Lexer.lexicalize`.  Inside a Python
character class, `)-,` is a range (codepoints 41 through 44, i.e. the four
characters `)`, `*`, `+`, `,`), so the class matches exactly
`+ * / ( ) ,` — and, notably, not the minus sign `-`. -/
def punctClass (c : Char) : Bool :=
  c == '+' || c == '*' || c == '/' || c == '(' || (')' ≤ c && c ≤ ',')

/-- `re.fullmatch(r'\d+|[a-zA-Z_][a-zA-Z0-9_]*', token)` of `Lexer._is_atom`:
either a non-empty run of digits, or a letter/underscore followed by
letters, digits or underscores. -/
def fullmatch_atom (s : List Char) : Bool :=
  match s with
  | [] => false
  | c :: rest =>
    (isDigit c && rest.all isDigit) || (isAlphaUnd c && rest.all isAlphaNumUnd)

/-- `Lexer._is_atom`: the string matches the atom pattern and is not in
`OPERATORS`. -/
def _is_atom (token : String) : Bool :=
  fullmatch_atom token.toList && !(OPERATORS.contains token)

/-- `Lexer._is_operator`: membership in `OPERATORS`. -/
def _is_operator (token : String) : Bool :=
  OPERATORS.contains token

/-- The scan of `re.findall(r'\d+|[a-zA-Z_]+|[+*/()-,]', expression)`:
left to right, extract a maximal digit run, else a maximal
letter/underscore run, else a single `punctClass` character; any other
character is skipped.  The fuel argument only makes the recursion
structural; `findall` supplies one unit per input character, which is
enough because every step consumes at least one character. -/
def findallGo : Nat → List Char → List String
  | 0, _ => []
  | _, [] => []
  | fuel+1, c :: rest =>
    if isDigit c then
      (c :: rest.takeWhile isDigit).asString :: findallGo fuel (rest.dropWhile isDigit)
    else if isAlphaUnd c then
      (c :: rest.takeWhile isAlphaUnd).asString :: findallGo fuel (rest.dropWhile isAlphaUnd)
    else if punctClass c then
      String.mk [c] :: findallGo fuel rest
    else
      findallGo fuel rest

/-- `re.findall` applied to the whole character sequence. -/
def findall (cs : List Char) : List String := findallGo cs.length cs

/-- The classification of one extracted lexeme inside `Lexer.lexicalize`:
atoms first, then operators, and anything else is tagged `EOF`. -/
def classify (lex : String) : Token :=
  if _is_atom lex then ⟨TokenType.ATOM, lex⟩
  else if _is_operator lex then ⟨TokenType.OP, lex⟩
  else ⟨TokenType.EOF, lex⟩

/-- `Lexer.lexicalize`: classify every extracted lexeme and append the
`Token(EOF, 'EOF')` sentinel.  The Python code stores the reversal of this
list so that `next`/`pop` work from the end; `next` and `peek` therefore
yield tokens in exactly the forward order below, which is how the stream
is modelled here. -/
def lexicalize (expression : String) : List Token :=
  (findall expression.toList).map classify ++ [⟨TokenType.EOF, "EOF"⟩]

/-- The `Expression` AST of `parssir.py`: `Expression.Atom` wraps its
token; `Expression.Operation` holds the operator token and the Python list
`[lhs, rhs]` of operands, whose entries can be the Python `None`
(hence `Option`). -/
inductive Expression where
  | Atom (value : Token)
  | Operation (op : Token) (operands : List (Option Expression))

/-- The failure modes of the parser: the two `SyntaxError`s raised in
`parse_expression`, the `KeyError` escaping the `infix_binding_power`
table lookup, the `IndexError` of `next`/`peek` on an exhausted token
list, and the artefact of the fuel encoding (shown unreachable for
adequate fuel in the termination theorem). -/
inductive ParseError where
  | syntaxError (msg : String)
  | keyError (key : String)
  | indexError
  | fuelExhausted
  deriving DecidableEq

/-- `Parser.infix_binding_power`: the binding-power dictionary lookup
`table[op.value]`; a missing key raises `KeyError(op.value)`. -/
def infix_binding_power (op : Token) : Except ParseError (Nat × Nat) :=
  match op.value with
  | "+" => .ok (10, 11)
  | "-" => .ok (10, 11)
  | "*" => .ok (20, 21)
  | "/" => .ok (20, 21)
  | v => .error (.keyError v)

mutual

/-- `Parser.parse_expression(min_bp)`: consume one token; an `ATOM` becomes
the left-hand side and control enters the `while True` loop
(`parse_expression_loop`); an `OP` raises `SyntaxError`; `EOF` returns the
Python `None`.  The token list is threaded explicitly (the Python code
mutates the shared lexer); the fuel argument only bounds the recursion
depth and is irrelevant once it exceeds the number of remaining tokens. -/
def parse_expression : Nat → List Token → Nat → Except ParseError (Option Expression × List Token)
  | 0, _, _ => .error .fuelExhausted
  | fuel+1, tokens, min_bp =>
    match tokens with
    | [] => .error .indexError
    | token :: rest =>
      match token.type with
      | TokenType.ATOM => parse_expression_loop fuel (some (.Atom token)) rest min_bp
      | TokenType.OP =>
        .error (.syntaxError "Operation cannot be the first symbol in an expression")
      | TokenType.EOF => .ok (none, rest)

/-- The `while True` loop body of `Parser.parse_expression`: peek the next
token; `EOF` breaks; an `ATOM` raises `SyntaxError`; an `OP` is looked up
in the binding-power table (possibly raising `KeyError`), the loop breaks
without consuming if its left binding power is below `min_bp`, and
otherwise the operator is consumed, the right-hand side is parsed with
`min_bp = r_bp`, and the loop continues with
`lhs = Expression.Operation(op, [lhs, rhs])`. -/
def parse_expression_loop : Nat → Option Expression → List Token → Nat → Except ParseError (Option Expression × List Token)
  | 0, _, _, _ => .error .fuelExhausted
  | fuel+1, lhs, tokens, min_bp =>
    match tokens with
    | [] => .error .indexError
    | next_token :: rest =>
      match next_token.type with
      | TokenType.EOF => .ok (lhs, next_token :: rest)
      | TokenType.ATOM => .error (.syntaxError "Expect an operation, not an atom")
      | TokenType.OP =>
        match infix_binding_power next_token with
        | .error e => .error e
        | .ok (l_bp, r_bp) =>
          if l_bp < min_bp then .ok (lhs, next_token :: rest)
          else
            match parse_expression fuel rest r_bp with
            | .error e => .error e
            | .ok (rhs, tokens') =>
              parse_expression_loop fuel (some (.Operation next_token [lhs, rhs])) tokens' min_bp

end

/-- The library surface exercised by the demo entry point:
`Parser(expression).parse_expression()` — lexicalize, then parse from
minimum binding power `0`.  The fuel (one more than the token count) is
sufficient by the termination theorem. -/
def parse (expression : String) : Except ParseError (Option Expression) :=
  let tokens := lexicalize expression
  Except.map Prod.fst (parse_expression (tokens.length + 1) tokens 0)

/-- C1: parsing the string "1 + 2 * 3" returns the tree
`BinaryOp(+, Atom(1), BinaryOp(*, Atom(2), Atom(3)))`: the higher binding
power of `*` groups `2` and `3` before `+` combines that subtree with `1`. -/
theorem C1_precedence_tree : parse "1 + 2 * 3" =
    .ok (some (.Operation ⟨TokenType.OP, "+"⟩
      [some (.Atom ⟨TokenType.ATOM, "1"⟩),
       some (.Operation ⟨TokenType.OP, "*"⟩
         [some (.Atom ⟨TokenType.ATOM, "2"⟩),
          some (.Atom ⟨TokenType.ATOM, "3"⟩)])])) := rfl

/-- C2 (code behaviour at the claim's failing inputs): an operator keyword
that does reach infix position (`and` in "1 and 2") makes the parse fail
with the raw missing-key lookup `KeyError('and')`, not an explicit
unsupported-operator error; and `%` in "1 % 2" is silently dropped by the
scanner, so the parse fails with the adjacent-atom `SyntaxError` instead of
naming `%`. -/
theorem C2_unsupported_operator_keyerror :
    parse "1 and 2" = .error (.keyError "and") ∧
    parse "1 % 2" = .error (.syntaxError "Expect an operation, not an atom") :=
  ⟨rfl, rfl⟩

/-- C3 (code behaviour at the claim's input): the scanner's character class
`[+*/()-,]` does not match `-` (because `)-,` is a range), so "1 - 2 - 3"
tokenizes as three adjacent atoms and parsing fails with the adjacent-atom
`SyntaxError` instead of returning the left-folded subtraction tree. -/
theorem C3_minus_dropped :
    lexicalize "1 - 2 - 3" =
      [⟨TokenType.ATOM, "1"⟩, ⟨TokenType.ATOM, "2"⟩,
       ⟨TokenType.ATOM, "3"⟩, ⟨TokenType.EOF, "EOF"⟩] ∧
    parse "1 - 2 - 3" = .error (.syntaxError "Expect an operation, not an atom") :=
  ⟨rfl, rfl⟩

/-- C4 (code behaviour at the claim's failing inputs): members of the
`OPERATORS` vocabulary are not extracted as single `Operator` tokens —
`-`, `%` and `==` are not matched by the scanning regular expression at
all, and `**` is extracted as two separate `*` tokens. -/
theorem C4_operator_vocabulary_gap :
    lexicalize "-" = [⟨TokenType.EOF, "EOF"⟩] ∧
    lexicalize "%" = [⟨TokenType.EOF, "EOF"⟩] ∧
    lexicalize "==" = [⟨TokenType.EOF, "EOF"⟩] ∧
    lexicalize "**" = [⟨TokenType.OP, "*"⟩, ⟨TokenType.OP, "*"⟩, ⟨TokenType.EOF, "EOF"⟩] :=
  ⟨rfl, rfl, rfl, rfl⟩

/-- C5 (code behaviour at the claim's input): a dangling operator does not
produce a missing-operand error.  On "1 +" the recursive right-hand-side
call consumes the `EOF` sentinel, so the subsequent `peek` hits an empty
token list and the parse dies with `IndexError`; and when a stray
lexeme is tagged `EOF` in the middle of the stream ("1 + ,"), the parser
returns a `BinaryOp` whose right operand is the Python `None`. -/
theorem C5_dangling_operator_behavior :
    parse "1 +" = .error .indexError ∧
    parse "1 + ," =
      .ok (some (.Operation ⟨TokenType.OP, "+"⟩
        [some (.Atom ⟨TokenType.ATOM, "1"⟩), none])) :=
  ⟨rfl, rfl⟩

/-- C6 (code behaviour at the claim's input): the extraction regular
expression uses `[a-zA-Z_]+`, which cannot cross into digits, so the
identifier "x1" — accepted in full by `_is_atom`'s pattern
`[a-zA-Z_][a-zA-Z0-9_]*` — is split into the two atoms "x" and "1"
rather than produced as one `Atom` token. -/
theorem C6_identifier_split :
    lexicalize "x1" =
      [⟨TokenType.ATOM, "x"⟩, ⟨TokenType.ATOM, "1"⟩, ⟨TokenType.EOF, "EOF"⟩] := rfl

/-- C8: a token sequence whose first token is an `Operator` makes
`parse_expression` fail at once with the operator-cannot-start SyntaxError,
for every minimum binding power and every (positive) fuel. -/
theorem C8_leading_operator_fails (fuel min_bp : Nat) (t : Token) (rest : List Token)
    (h : t.type = TokenType.OP) :
    parse_expression (fuel + 1) (t :: rest) min_bp =
      .error (.syntaxError "Operation cannot be the first symbol in an expression") := by
  cases t with
  | mk ty v =>
    have h' : ty = TokenType.OP := h
    subst h'
    rfl

/-- Witness for C8 at the concrete token sequence of the input "* 1". -/
theorem C8_leading_operator_fails_witness :
    parse_expression 1 [⟨TokenType.OP, "*"⟩, ⟨TokenType.ATOM, "1"⟩, ⟨TokenType.EOF, "EOF"⟩] 0 =
      .error (.syntaxError "Operation cannot be the first symbol in an expression") :=
  C8_leading_operator_fails 0 0 ⟨TokenType.OP, "*"⟩ [⟨TokenType.ATOM, "1"⟩, ⟨TokenType.EOF, "EOF"⟩] rfl

/-- No whitespace character is matched by any of the scanner's three
alternatives, so a whitespace-only character list yields no lexemes. -/
theorem findallGo_whitespace (fuel : Nat) :
    ∀ cs : List Char, (∀ c ∈ cs, c.isWhitespace) → findallGo fuel cs = [] := by
  induction fuel with
  | zero => intro cs _; cases cs <;> rfl
  | succ n ih =>
    intro cs h
    cases cs with
    | nil => rfl
    | cons c rest =>
      have hc : c.isWhitespace := h c (List.mem_cons_self c rest)
      have hrest : ∀ x ∈ rest, x.isWhitespace := fun x hx => h x (List.mem_cons_of_mem c hx)
      have hcls : isDigit c = false ∧ isAlphaUnd c = false ∧ punctClass c = false := by
        simp only [Char.isWhitespace, Bool.or_eq_true, decide_eq_true_eq] at hc
        rcases hc with ((rfl | rfl) | rfl) | rfl <;> exact ⟨by decide, by decide, by decide⟩
      simp only [findallGo, hcls.1, hcls.2.1, hcls.2.2, Bool.false_eq_true, if_false]
      exact ih rest hrest

/-- C7: for every empty or whitespace-only input string, the top-level
parse returns the empty result (the Python None) and raises no error. -/
theorem C7_blank_input_ok (s : String) (h : ∀ c ∈ s.toList, c.isWhitespace) :
    parse s = .ok none := by
  have hfa : findall s.toList = [] := findallGo_whitespace _ _ h
  have hl : lexicalize s = [⟨TokenType.EOF, "EOF"⟩] := by
    rw [lexicalize, hfa]; rfl
  simp only [parse, hl]
  rfl

/-- Witness for C7 at a concrete whitespace-only input. -/
theorem C7_blank_input_ok_witness : parse "  " = .ok none :=
  C7_blank_input_ok "  " (by decide)

/-- The characters of the range `)-,` inside the scanner's punctuation
class are exactly `)`, `*`, `+` and `,` (codepoints 41 through 44). -/
theorem punct_range_cases (c : Char) (h1 : ')' ≤ c) (h2 : c ≤ ',') :
    c = ')' ∨ c = '*' ∨ c = '+' ∨ c = ',' := by
  rw [Char.le_def] at h1 h2
  have t1 : 41 ≤ c.val.toNat := h1
  have t2 : c.val.toNat ≤ 44 := h2
  have hv : c.toNat = 41 ∨ c.toNat = 42 ∨ c.toNat = 43 ∨ c.toNat = 44 := by
    unfold Char.toNat; omega
  have key : ∀ n : Nat, c.toNat = n → c = Char.ofNat n := by
    intro n hn
    rw [← hn, Char.ofNat_toNat]
  rcases hv with hv | hv | hv | hv
  · left; rw [key _ hv]
  · right; left; rw [key _ hv]
  · right; right; left; rw [key _ hv]
  · right; right; right; rw [key _ hv]

/-- Every single punctuation-class character other than the comma is a
member of `OPERATORS`. -/
theorem punct_is_operator (c : Char) (hp : punctClass c = true) (hc : c ≠ ',') :
    _is_operator (String.mk [c]) = true := by
  simp only [punctClass, Bool.or_eq_true, beq_iff_eq, Bool.and_eq_true,
    decide_eq_true_eq] at hp
  rcases hp with (((rfl | rfl) | rfl) | rfl) | ⟨h1, h2⟩
  · decide
  · decide
  · decide
  · decide
  · rcases punct_range_cases c h1 h2 with rfl | rfl | rfl | rfl
    · decide
    · decide
    · decide
    · exact absurd rfl hc

/-- A lexeme that is an `OPERATORS` member is classified `OP` (if it also
matched the atom pattern it would be classified `ATOM`); either way its
token type is not `EOF`. -/
theorem classify_not_eof_of_operator (lex : String) (h : _is_operator lex = true) :
    (classify lex).type ≠ TokenType.EOF := by
  unfold classify
  by_cases ha : _is_atom lex = true
  · simp [ha]
  · simp [ha, _is_operator] at h ⊢
    simp [h]

/-- A lexeme matching the atom pattern is classified `ATOM` if it is not an
operator keyword and `OP` if it is; never `EOF`. -/
theorem classify_not_eof_of_fullmatch (lex : String) (h : fullmatch_atom lex.toList = true) :
    (classify lex).type ≠ TokenType.EOF := by
  by_cases hop : _is_operator lex = true
  · exact classify_not_eof_of_operator lex hop
  · have ha : _is_atom lex = true := by
      have hop' : OPERATORS.contains lex = false := by
        simpa only [_is_operator, Bool.not_eq_true] using hop
      unfold _is_atom
      rw [h, hop']
      rfl
    unfold classify
    simp [ha]

/-- A non-empty digit run matches the atom pattern. -/
theorem fullmatch_digit_run (c : Char) (l : List Char) (hc : isDigit c = true) :
    fullmatch_atom (c :: l.takeWhile isDigit) = true := by
  simp only [fullmatch_atom]
  rw [hc, List.all_takeWhile]
  rfl

/-- A non-empty letter/underscore run matches the atom pattern. -/
theorem fullmatch_alpha_run (c : Char) (l : List Char) (hc : isAlphaUnd c = true) :
    fullmatch_atom (c :: l.takeWhile isAlphaUnd) = true := by
  simp only [fullmatch_atom]
  have hall : (l.takeWhile isAlphaUnd).all isAlphaNumUnd = true := by
    rw [List.all_eq_true]
    intro x hx
    have := List.all_takeWhile (p := isAlphaUnd) (l := l)
    rw [List.all_eq_true] at this
    simp [isAlphaNumUnd, this x hx]
  rw [hc, hall]
  simp

/-- Every lexeme the scanner extracts from a comma-free character list is
classified `ATOM` or `OP`, never tagged `EOF`. -/
theorem findallGo_not_eof (fuel : Nat) :
    ∀ cs : List Char, ',' ∉ cs →
      ∀ lex ∈ findallGo fuel cs, (classify lex).type ≠ TokenType.EOF := by
  induction fuel with
  | zero =>
    intro cs _ lex hlex
    cases cs <;> simp [findallGo] at hlex
  | succ n ih =>
    intro cs hnc lex hlex
    cases cs with
    | nil => simp [findallGo] at hlex
    | cons c rest =>
      have hnc_rest : ',' ∉ rest := fun hr => hnc (List.mem_cons_of_mem c hr)
      simp only [findallGo] at hlex
      by_cases hd : isDigit c = true
      · rw [if_pos hd] at hlex
        rcases List.mem_cons.mp hlex with h1 | h1
        · subst h1
          exact classify_not_eof_of_fullmatch _ (fullmatch_digit_run c rest hd)
        · have : ',' ∉ rest.dropWhile isDigit :=
            fun hr => hnc_rest (List.dropWhile_subset _ hr)
          exact ih _ this lex h1
      · rw [if_neg hd] at hlex
        by_cases ha : isAlphaUnd c = true
        · rw [if_pos ha] at hlex
          rcases List.mem_cons.mp hlex with h1 | h1
          · subst h1
            exact classify_not_eof_of_fullmatch _ (fullmatch_alpha_run c rest ha)
          · have : ',' ∉ rest.dropWhile isAlphaUnd :=
              fun hr => hnc_rest (List.dropWhile_subset _ hr)
            exact ih _ this lex h1
        · rw [if_neg ha] at hlex
          by_cases hpn : punctClass c = true
          · rw [if_pos hpn] at hlex
            rcases List.mem_cons.mp hlex with h1 | h1
            · subst h1
              have hcc : c ≠ ',' := fun he => hnc (he ▸ List.mem_cons_self c rest)
              exact classify_not_eof_of_operator _ (punct_is_operator c hpn hcc)
            · exact ih _ hnc_rest lex h1
          · rw [if_neg hpn] at hlex
            exact ih _ hnc_rest lex hlex

/-- C9 counterexample: on the input "," the stray comma lexeme — matched by
the scanner's punctuation class but neither an atom nor an operator — is
itself tagged `EOF`, so the token sequence contains two `EOF` tokens and
the terminator is not the only one. -/
theorem C9_comma_counterexample :
    lexicalize "," = [⟨TokenType.EOF, ","⟩, ⟨TokenType.EOF, "EOF"⟩] ∧
    ¬ ((lexicalize ",").filter (fun t => t.type == TokenType.EOF)).length = 1 :=
  ⟨rfl, by decide⟩

/-- C9 (amended): for every input string the token sequence is non-empty
and its last element is the `EndOfInput` sentinel; and whenever the input
contains no `,` character, no token before the last is tagged `EOF`, i.e.
the terminator is the only `EndOfInput` token. -/
theorem C9_terminated_sequence (s : String) :
    (lexicalize s ≠ [] ∧ (lexicalize s).getLast? = some ⟨TokenType.EOF, "EOF"⟩) ∧
    (',' ∉ s.toList → ∀ t ∈ (lexicalize s).dropLast, t.type ≠ TokenType.EOF) := by
  constructor
  · constructor
    · simp [lexicalize]
    · rw [lexicalize, List.getLast?_concat]
  · intro hnc t ht
    rw [lexicalize, List.dropLast_concat] at ht
    obtain ⟨lex, hlex, rfl⟩ := List.mem_map.mp ht
    exact findallGo_not_eof _ _ hnc lex hlex

/-- Witness for C9's conditional part at a concrete comma-free input. -/
theorem C9_terminated_sequence_witness :
    ∀ t ∈ (lexicalize "1 + 2").dropLast, t.type ≠ TokenType.EOF :=
  (C9_terminated_sequence "1 + 2").2 (by decide)

/-- The binding-power lookup fails only with `KeyError(op.value)`. -/
theorem infix_binding_power_error (op : Token) (e : ParseError)
    (h : infix_binding_power op = .error e) : e = .keyError op.value := by
  unfold infix_binding_power at h
  split at h <;> simp_all

/-- Both parser entry points only ever shrink the token list: a successful
run returns a suffix no longer than its input. -/
theorem parse_consumes (fuel : Nat) :
    (∀ tokens min_bp res rest, parse_expression fuel tokens min_bp = .ok (res, rest) →
      rest.length ≤ tokens.length) ∧
    (∀ lhs tokens min_bp res rest, parse_expression_loop fuel lhs tokens min_bp = .ok (res, rest) →
      rest.length ≤ tokens.length) := by
  induction fuel with
  | zero =>
    constructor
    · intro tokens min_bp res rest h
      simp [parse_expression] at h
    · intro lhs tokens min_bp res rest h
      simp [parse_expression_loop] at h
  | succ n ih =>
    obtain ⟨ihe, ihl⟩ := ih
    constructor
    · intro tokens min_bp res rest h
      cases tokens with
      | nil => simp [parse_expression] at h
      | cons token ts =>
        obtain ⟨ty, v⟩ := token
        cases ty with
        | ATOM =>
          simp only [parse_expression] at h
          have := ihl _ _ _ _ _ h
          simp only [List.length_cons]
          omega
        | OP => simp [parse_expression] at h
        | EOF =>
          simp only [parse_expression, Except.ok.injEq, Prod.mk.injEq] at h
          obtain ⟨-, rfl⟩ := h
          simp only [List.length_cons]
          omega
    · intro lhs tokens min_bp res rest h
      cases tokens with
      | nil => simp [parse_expression_loop] at h
      | cons next_token ts =>
        obtain ⟨ty, v⟩ := next_token
        cases ty with
        | EOF =>
          simp only [parse_expression_loop, Except.ok.injEq, Prod.mk.injEq] at h
          obtain ⟨-, rfl⟩ := h
          exact Nat.le_refl _
        | ATOM => simp [parse_expression_loop] at h
        | OP =>
          simp only [parse_expression_loop] at h
          split at h
          · simp at h
          · split at h
            · simp only [Except.ok.injEq, Prod.mk.injEq] at h
              obtain ⟨-, rfl⟩ := h
              exact Nat.le_refl _
            · split at h
              · simp at h
              · rename_i rhs tokens' hpe
                have hc1 := ihe _ _ _ _ hpe
                have hc2 := ihl _ _ _ _ _ h
                simp only [List.length_cons]
                omega

/-- The run of the parser does not depend on the fuel, as soon as the fuel
exceeds the number of remaining tokens.  (`N` is an upper bound for the
token count, used as the strong-induction measure.) -/
theorem parse_fuel_indep (N : Nat) :
    ∀ tokens : List Token, tokens.length ≤ N → ∀ min_bp fuel₁ fuel₂,
      tokens.length < fuel₁ → tokens.length < fuel₂ →
      (parse_expression fuel₁ tokens min_bp = parse_expression fuel₂ tokens min_bp) ∧
      (∀ lhs, parse_expression_loop fuel₁ lhs tokens min_bp =
        parse_expression_loop fuel₂ lhs tokens min_bp) := by
  induction N with
  | zero =>
    intro tokens hN min_bp fuel₁ fuel₂ h1 h2
    have htok : tokens = [] := List.length_eq_zero.mp (Nat.le_zero.mp hN)
    subst htok
    cases fuel₁ with
    | zero => exact absurd h1 (Nat.not_lt_zero _)
    | succ m =>
      cases fuel₂ with
      | zero => exact absurd h2 (Nat.not_lt_zero _)
      | succ k => exact ⟨rfl, fun lhs => rfl⟩
  | succ N ih =>
    intro tokens hN min_bp fuel₁ fuel₂ h1 h2
    cases fuel₁ with
    | zero => exact absurd h1 (Nat.not_lt_zero _)
    | succ m =>
      cases fuel₂ with
      | zero => exact absurd h2 (Nat.not_lt_zero _)
      | succ k =>
        cases tokens with
        | nil => exact ⟨rfl, fun lhs => rfl⟩
        | cons token ts =>
          have hlen : ts.length ≤ N := by
            simp only [List.length_cons] at hN
            omega
          have hm : ts.length < m := by
            simp only [List.length_cons] at h1
            omega
          have hk : ts.length < k := by
            simp only [List.length_cons] at h2
            omega
          constructor
          · obtain ⟨ty, v⟩ := token
            cases ty with
            | ATOM =>
              simp only [parse_expression]
              exact (ih ts hlen min_bp m k hm hk).2 _
            | OP => rfl
            | EOF => rfl
          · intro lhs
            obtain ⟨ty, v⟩ := token
            cases ty with
            | EOF => rfl
            | ATOM => rfl
            | OP =>
              simp only [parse_expression_loop]
              split
              · rfl
              · split
                · rfl
                · rename_i l_bp r_bp hbp hlt
                  have hpe : parse_expression m ts r_bp = parse_expression k ts r_bp :=
                    (ih ts hlen r_bp m k hm hk).1
                  rw [hpe]
                  split
                  · rfl
                  · rename_i rhs tokens' hpk
                    have hcon : tokens'.length ≤ ts.length :=
                      (parse_consumes k).1 _ _ _ _ hpk
                    exact (ih tokens' (Nat.le_trans hcon hlen) min_bp m k
                      (Nat.lt_of_le_of_lt hcon hm) (Nat.lt_of_le_of_lt hcon hk)).2 _

/-- With fuel exceeding the number of remaining tokens, the parser never
runs out of fuel: every recursive call strictly consumes tokens. -/
theorem parse_no_fuel_exhausted (N : Nat) :
    ∀ tokens : List Token, tokens.length ≤ N → ∀ min_bp fuel,
      tokens.length < fuel →
      (parse_expression fuel tokens min_bp ≠ .error .fuelExhausted) ∧
      (∀ lhs, parse_expression_loop fuel lhs tokens min_bp ≠ .error .fuelExhausted) := by
  induction N with
  | zero =>
    intro tokens hN min_bp fuel h1
    have htok : tokens = [] := List.length_eq_zero.mp (Nat.le_zero.mp hN)
    subst htok
    cases fuel with
    | zero => exact absurd h1 (Nat.not_lt_zero _)
    | succ m => exact ⟨by simp [parse_expression], fun lhs => by simp [parse_expression_loop]⟩
  | succ N ih =>
    intro tokens hN min_bp fuel h1
    cases fuel with
    | zero => exact absurd h1 (Nat.not_lt_zero _)
    | succ m =>
      cases tokens with
      | nil => exact ⟨by simp [parse_expression], fun lhs => by simp [parse_expression_loop]⟩
      | cons token ts =>
        have hlen : ts.length ≤ N := by
          simp only [List.length_cons] at hN
          omega
        have hm : ts.length < m := by
          simp only [List.length_cons] at h1
          omega
        constructor
        · obtain ⟨ty, v⟩ := token
          cases ty with
          | ATOM =>
            simp only [parse_expression]
            exact (ih ts hlen min_bp m hm).2 _
          | OP => simp [parse_expression]
          | EOF => simp [parse_expression]
        · intro lhs
          obtain ⟨ty, v⟩ := token
          cases ty with
          | EOF => simp [parse_expression_loop]
          | ATOM => simp [parse_expression_loop]
          | OP =>
            simp only [parse_expression_loop]
            split
            · rename_i e hbp
              have he : e = .keyError v := infix_binding_power_error _ _ hbp
              subst he
              simp
            · split
              · simp
              · rename_i l_bp r_bp hbp hlt
                split
                · rename_i e2 hpe
                  have hne := (ih ts hlen r_bp m hm).1
                  rw [hpe] at hne
                  simpa using hne
                · rename_i rhs tokens' hpe
                  have hcon : tokens'.length ≤ ts.length :=
                    (parse_consumes m).1 _ _ _ _ hpe
                  exact (ih tokens' (Nat.le_trans hcon hlen) min_bp m
                    (Nat.lt_of_le_of_lt hcon hm)).2 _

/-- C10: `parse_expression` terminates on every token sequence and every
minimum binding power — each loop iteration and recursive call strictly
consumes tokens, so once the fuel exceeds the number of remaining tokens
the run never exhausts it and the result no longer depends on it. -/
theorem C10_parse_terminates (tokens : List Token) (min_bp fuel : Nat)
    (h : tokens.length < fuel) :
    parse_expression fuel tokens min_bp ≠ Except.error ParseError.fuelExhausted ∧
    parse_expression fuel tokens min_bp =
      parse_expression (tokens.length + 1) tokens min_bp :=
  ⟨(parse_no_fuel_exhausted tokens.length tokens (Nat.le_refl _) min_bp fuel h).1,
   (parse_fuel_indep tokens.length tokens (Nat.le_refl _) min_bp fuel (tokens.length + 1)
      h (Nat.lt_succ_self _)).1⟩

/-- Witness for C10 at the token sequence of the demo input and generous
fuel. -/
theorem C10_parse_terminates_witness :
    parse_expression 25 (lexicalize "1 + 2 * 3") 0 ≠ Except.error ParseError.fuelExhausted ∧
    parse_expression 25 (lexicalize "1 + 2 * 3") 0 =
      parse_expression ((lexicalize "1 + 2 * 3").length + 1) (lexicalize "1 + 2 * 3") 0 :=
  C10_parse_terminates (lexicalize "1 + 2 * 3") 0 25 (by decide)

end Parssir
